import Mathlib


/-!
# Verification of the `rest_cpp` asynchronous connection pool

A shallow embedding of `include/rest_cpp/connection/connection_pool.hpp`
(class `ConnectionPool`), `include/rest_cpp/endpoint.hpp` (struct
`Endpoint`) and `include/rest_cpp/error.hpp` (struct `Error`).

Modelling conventions:
* `std::chrono::steady_clock::time_point` and durations are `Int` (a tick
  count); `steady_clock::now()` values are inputs to each operation.
* Connections are identified by a `Nat` token standing for the heap
  address of the `unique_ptr<Conn>`; `make_unique` freshness is modelled
  by the `next_conn` allocation counter.  `Conn::is_healthy()` is an
  external effect and is supplied per call as an oracle `Nat → Bool`.
* `std::unordered_map` is an association list (first match wins, exactly
  like `find`/`operator[]` on a map whose keys are not duplicated).
* `std::size_t` / `std::uint64_t` counters are `Nat`.  The only
  subtraction, `--m_total_in_use` in `release`, runs on the branch where
  an in-use entry was found, where the counter is positive in every
  reachable state (invariant 2 of the class comment), so truncated
  subtraction agrees with `size_t` there.
* The model is sequential: all pool state is mutated under the single
  mutex `mu_` in the source, so a quiescent-point model composes the
  locked sections one after another.
-/

namespace RestCpp

/-! ## `endpoint.hpp` -/

structure Endpoint where
  host : String
  port : String
  https : Bool
deriving DecidableEq, Repr

/-- `std::tolower` on an `unsigned char` in the default locale. -/
def tolowerChar (c : Char) : Char :=
  if 'A' ≤ c ∧ c ≤ 'Z' then Char.ofNat (c.toNat + 32) else c

def lowerHost (s : String) : String := ⟨s.data.map tolowerChar⟩

/-- `Endpoint::normalize_default_port`. -/
def Endpoint.normalize_default_port (e : Endpoint) : Endpoint :=
  if e.port = "" then { e with port := if e.https then "443" else "80" } else e

/-- `Endpoint::normalize_host`. -/
def Endpoint.normalize_host (e : Endpoint) : Endpoint :=
  let h := if e.host = "" then "localhost" else e.host
  { e with host := lowerHost h }

/-! ## `error.hpp` -/

/-- `Error::Code`.  These eight constructors are the whole enum. -/
inductive ErrorCode where
  | InvalidUrl
  | ConnectionFailed
  | TlsHandshakeFailed
  | Timeout
  | SendFailed
  | ReceiveFailed
  | NetworkError
  | Unknown
deriving DecidableEq, Repr

structure Error where
  code : ErrorCode
  message : String
deriving DecidableEq, Repr

/-! ## Pool data model (`connection_pool.hpp`) -/

/-- `AsyncConnectionPoolConfiguration` (`config.hpp`). -/
structure Config where
  max_total_connections : Nat
  max_connections_per_endpoint : Nat
  connection_idle_ttl : Int
  close_on_prune : Bool
  close_on_shutdown : Bool
  max_connection_reuse_count : Nat
  max_connection_age : Int
  circuit_breaker_failure_threshold : Nat
  circuit_breaker_timeout : Int
deriving DecidableEq, Repr

/-- `ConnectionPoolMetrics` (atomic counters and gauges, all `Nat`). -/
structure Metrics where
  total_in_use : Nat
  total_idle : Nat
  waiters_total : Nat
  acquire_success : Nat
  acquire_timeout : Nat
  acquire_shutdown : Nat
  acquire_internal_error : Nat
  acquire_circuit_open : Nat
  connection_created : Nat
  connection_reused : Nat
  connection_pruned : Nat
  connection_dropped_unhealthy : Nat
  connection_dropped_reuse_limit : Nat
  connection_dropped_age_limit : Nat
  release_invalid_id : Nat
  circuit_breaker_opened : Nat
  circuit_breaker_closed : Nat
deriving DecidableEq, Repr

def Metrics.init : Metrics :=
  ⟨0, 0, 0, 0, 0, 0, 0, 0, 0, 0, 0, 0, 0, 0, 0, 0, 0⟩

/-- `ConnectionPool::IdleEntry`. -/
structure IdleEntry where
  conn : Nat
  last_used : Int
  created : Int
  reuse_count : Nat
deriving DecidableEq, Repr

/-- `ConnectionPool::Waiter`, as seen through a secondary queue.  `wid`
stands for the identity of the waiter (its stable `m_waiters` node); `timer`
for the `shared_ptr<steady_timer>` it holds. -/
structure Waiter where
  wid : Nat
  active : Bool
  timer : Nat
deriving DecidableEq, Repr

/-- `ConnectionPool::Bucket`.  `in_use` is the `id → connection` map. -/
structure Bucket where
  idle : List IdleEntry
  in_use : List (Nat × Nat)
  waiters : List Waiter
  consecutive_failures : Nat
  circuit_open_until : Int
deriving DecidableEq, Repr

def Bucket.empty : Bucket := ⟨[], [], [], 0, 0⟩

/-- `Bucket::is_circuit_open`. -/
def Bucket.is_circuit_open (b : Bucket) (now : Int) : Bool :=
  now < b.circuit_open_until

/-- `enum class WaitReason`. -/
inductive WaitReason where
  | EndpointCapacity
  | GlobalCapacity
deriving DecidableEq, Repr

/-- The mutable state of `ConnectionPool` guarded by `mu_`, plus the
`alive` flag of `Lease::State`. -/
structure Pool where
  alive : Bool
  buckets : List (Endpoint × Bucket)
  global_waiters : List Waiter
  total_in_use : Nat
  next_id : Nat
  next_conn : Nat
  metrics : Metrics
deriving DecidableEq, Repr

/-- A freshly constructed pool (`m_next_id` starts at 1). -/
def freshPool : Pool := ⟨true, [], [], 0, 1, 1, Metrics.init⟩

/-- The data carried by a `Lease` built in `try_acquire_locked`:
the raw connection pointer and the assigned id. -/
structure LeaseInfo where
  conn : Nat
  id : Nat
  ep : Endpoint
deriving DecidableEq, Repr

/-! ### Association-list primitives for `m_buckets` and `Bucket::in_use` -/

def lookupBucket : List (Endpoint × Bucket) → Endpoint → Option Bucket
  | [], _ => none
  | q :: rest, ep => if q.1 = ep then some q.2 else lookupBucket rest ep

def updateBucket : List (Endpoint × Bucket) → Endpoint → Bucket → List (Endpoint × Bucket)
  | [], ep, b => [(ep, b)]
  | q :: rest, ep, b => if q.1 = ep then (ep, b) :: rest else q :: updateBucket rest ep b

def findConn : List (Nat × Nat) → Nat → Option Nat
  | [], _ => none
  | q :: rest, ident => if q.1 = ident then some q.2 else findConn rest ident

def eraseId : List (Nat × Nat) → Nat → List (Nat × Nat)
  | [], _ => []
  | q :: rest, ident => if q.1 = ident then rest else q :: eraseId rest ident

/-- Sum of a bucket measure over the bucket map. -/
def sumBy (f : Bucket → Nat) (bs : List (Endpoint × Bucket)) : Nat :=
  (bs.map fun q => f q.2).sum

/-! ### Pool operations -/

/-- `ConnectionPool::normalize_endpoint`. -/
def normalize_endpoint (ep : Endpoint) : Endpoint :=
  ep.normalize_default_port.normalize_host

/-- The pruning loop body of `prune_idle_locked` on the `idle` deque
of one bucket: pop from the front while `now - last_used ≥ ttl`,
returning the surviving deque and the number of popped entries. -/
def pruneIdleList (ttl now : Int) : List IdleEntry → List IdleEntry × Nat
  | [] => ([], 0)
  | e :: rest =>
    if now - e.last_used < ttl then (e :: rest, 0)
    else
      let r := pruneIdleList ttl now rest
      (r.1, r.2 + 1)

/-- `ConnectionPool::prune_idle_locked`.  (`close_on_prune` only closes
the popped sockets, an external effect with no pool-state footprint.) -/
def prune_idle_locked (cfg : Config) (now : Int) (p : Pool) : Pool :=
  if cfg.connection_idle_ttl ≤ 0 then p
  else
    let pruned :=
      (p.buckets.map fun q =>
        (pruneIdleList cfg.connection_idle_ttl now q.2.idle).2).sum
    { p with
      buckets := p.buckets.map fun q =>
        (q.1, { q.2 with idle := (pruneIdleList cfg.connection_idle_ttl now q.2.idle).1 }),
      metrics := { p.metrics with
        connection_pruned := p.metrics.connection_pruned + pruned } }

/-- `ConnectionPool::total_idle_locked`. -/
def total_idle_locked (p : Pool) : Nat :=
  sumBy (fun b => b.idle.length) p.buckets

/-- The idle-reuse loop of `try_acquire_locked`: pop entries from the
front of `idle`, dropping unhealthy / over-reused / over-aged ones,
until one is reusable.  Returns the chosen entry (if any), the
remaining deque, and the updated metrics (`total_idle` is decremented
for every popped entry, as in the source). -/
def reuseScan (cfg : Config) (healthy : Nat → Bool) (now : Int) :
    List IdleEntry → Metrics → Option IdleEntry × List IdleEntry × Metrics
  | [], m => (none, [], m)
  | e :: rest, m =>
    let m := { m with total_idle := m.total_idle - 1 }
    if !healthy e.conn then
      reuseScan cfg healthy now rest
        { m with connection_dropped_unhealthy := m.connection_dropped_unhealthy + 1 }
    else if cfg.max_connection_reuse_count ≤ e.reuse_count then
      reuseScan cfg healthy now rest
        { m with connection_dropped_reuse_limit := m.connection_dropped_reuse_limit + 1 }
    else if cfg.max_connection_age < now - e.created then
      reuseScan cfg healthy now rest
        { m with connection_dropped_age_limit := m.connection_dropped_age_limit + 1 }
    else
      (some e, rest, m)

/-- `ConnectionPool::try_acquire_locked`.  On reuse the source increments
`entry.reuse_count` on the popped local `entry` and then moves only
`entry.conn` into `in_use`, so the incremented count is discarded with
the local; `in_use` stores no reuse count, exactly as here. -/
def try_acquire_locked (cfg : Config) (healthy : Nat → Bool) (now : Int)
    (ep : Endpoint) (p : Pool) : Option LeaseInfo × Pool :=
  if !p.alive then (none, p)
  else
    let p := prune_idle_locked cfg now p
    -- `auto& bucket = m_buckets[endpoint]` default-inserts the bucket.
    let b := (lookupBucket p.buckets ep).getD Bucket.empty
    let p := { p with buckets := updateBucket p.buckets ep b }
    if b.is_circuit_open now then (none, p)
    else
      match reuseScan cfg healthy now b.idle p.metrics with
      | (some e, rest, m) =>
        let ident := p.next_id
        let b' := { b with idle := rest, in_use := (ident, e.conn) :: b.in_use }
        let tiu := p.total_in_use + 1
        (some ⟨e.conn, ident, ep⟩,
         { p with
           buckets := updateBucket p.buckets ep b',
           total_in_use := tiu,
           next_id := p.next_id + 1,
           metrics := { m with
             total_in_use := tiu,
             connection_reused := m.connection_reused + 1 } })
      | (none, rest, m) =>
        let b := { b with idle := rest }
        let p := { p with buckets := updateBucket p.buckets ep b, metrics := m }
        let endpoint_total := b.in_use.length + b.idle.length
        let total_total := p.total_in_use + total_idle_locked p
        if cfg.max_connections_per_endpoint ≤ endpoint_total then (none, p)
        else if cfg.max_total_connections ≤ total_total then (none, p)
        else
          let conn := p.next_conn
          let ident := p.next_id
          let b' := { b with in_use := (ident, conn) :: b.in_use }
          let tiu := p.total_in_use + 1
          (some ⟨conn, ident, ep⟩,
           { p with
             buckets := updateBucket p.buckets ep b',
             total_in_use := tiu,
             next_id := p.next_id + 1,
             next_conn := p.next_conn + 1,
             metrics := { m with
               total_in_use := tiu,
               connection_created := m.connection_created + 1 } })

/-- `ConnectionPool::try_acquire`. -/
def try_acquire (cfg : Config) (healthy : Nat → Bool) (now : Int)
    (ep : Endpoint) (p : Pool) : Option LeaseInfo × Pool :=
  try_acquire_locked cfg healthy now (normalize_endpoint ep) p

/-- `ConnectionPool::determine_wait_reason_locked`. -/
def determine_wait_reason_locked (cfg : Config) (ep : Endpoint) (p : Pool) :
    WaitReason :=
  match lookupBucket p.buckets ep with
  | none =>
    if cfg.max_total_connections ≤ p.total_in_use + total_idle_locked p then
      WaitReason.GlobalCapacity
    else WaitReason.EndpointCapacity
  | some b =>
    if cfg.max_connections_per_endpoint ≤ b.in_use.length + b.idle.length then
      WaitReason.EndpointCapacity
    else WaitReason.GlobalCapacity

/-- The pop-until-active loop shared by both halves of
`pop_waiter_for_endpoint_locked`: inactive front waiters are popped and
discarded; the first active one is popped and returned. -/
def popActive : List Waiter → Option Waiter × List Waiter
  | [] => (none, [])
  | w :: rest => if w.active then (some w, rest) else popActive rest

/-- The global half of `pop_waiter_for_endpoint_locked`. -/
def popGlobal (p : Pool) : Option Nat × Pool :=
  match popActive p.global_waiters with
  | (some w, rest) =>
    (some w.timer,
     { p with
       global_waiters := rest,
       metrics := { p.metrics with waiters_total := p.metrics.waiters_total - 1 } })
  | (none, rest) => (none, { p with global_waiters := rest })

/-- `ConnectionPool::pop_waiter_for_endpoint_locked`: first the local
waiters of the bucket, then the global ones; returns the captured timer. -/
def pop_waiter_for_endpoint_locked (ep : Endpoint) (p : Pool) : Option Nat × Pool :=
  match lookupBucket p.buckets ep with
  | some b =>
    match popActive b.waiters with
    | (some w, rest) =>
      (some w.timer,
       { p with
         buckets := updateBucket p.buckets ep { b with waiters := rest },
         metrics := { p.metrics with waiters_total := p.metrics.waiters_total - 1 } })
    | (none, rest) =>
      popGlobal { p with buckets := updateBucket p.buckets ep { b with waiters := rest } }
  | none => popGlobal p

/-- `ConnectionPool::release`.  Returns the new pool state and the timer
captured from the (at most one) waiter popped under the lock; the caller
cancels that timer outside the lock, which is the wake-up. -/
def release (healthy : Nat → Bool) (now : Int) (ep : Endpoint) (ident : Nat)
    (p : Pool) : Pool × Option Nat :=
  match lookupBucket p.buckets ep with
  | none =>
    ({ p with metrics := { p.metrics with
        release_invalid_id := p.metrics.release_invalid_id + 1 } }, none)
  | some b =>
    match findConn b.in_use ident with
    | none =>
      ({ p with metrics := { p.metrics with
          release_invalid_id := p.metrics.release_invalid_id + 1 } }, none)
    | some c =>
      let tiu := p.total_in_use - 1
      let b := { b with in_use := eraseId b.in_use ident }
      let m := { p.metrics with total_in_use := tiu }
      -- On a healthy release the source pushes a brand-new `IdleEntry`
      -- with `last_used = now`, `created = now` and `reuse_count = 0`.
      let p :=
        if healthy c then
          { p with
            buckets := updateBucket p.buckets ep
              { b with idle := b.idle ++ [⟨c, now, now, 0⟩] },
            total_in_use := tiu,
            metrics := { m with total_idle := m.total_idle + 1 } }
        else
          { p with
            buckets := updateBucket p.buckets ep b,
            total_in_use := tiu,
            metrics := { m with
              connection_dropped_unhealthy := m.connection_dropped_unhealthy + 1 } }
      let r := pop_waiter_for_endpoint_locked ep p
      (r.2, r.1)

/-- `ConnectionPool::report_connection_failure` (reached from the public
`report_failure`, which passes its argument through unchanged). -/
def report_connection_failure (cfg : Config) (now : Int) (ep : Endpoint)
    (p : Pool) : Pool :=
  let b := (lookupBucket p.buckets ep).getD Bucket.empty
  let b := { b with consecutive_failures := b.consecutive_failures + 1 }
  if cfg.circuit_breaker_failure_threshold ≤ b.consecutive_failures then
    { p with
      buckets := updateBucket p.buckets ep
        { b with circuit_open_until := now + cfg.circuit_breaker_timeout },
      metrics := { p.metrics with
        circuit_breaker_opened := p.metrics.circuit_breaker_opened + 1 } }
  else
    { p with buckets := updateBucket p.buckets ep b }

/-- `ConnectionPool::report_connection_success` (reached from the public
`report_success`, which passes its argument through unchanged). -/
def report_connection_success (ep : Endpoint) (p : Pool) : Pool :=
  match lookupBucket p.buckets ep with
  | none => p
  | some b =>
    if 0 < b.consecutive_failures then
      { p with
        buckets := updateBucket p.buckets ep { b with consecutive_failures := 0 },
        metrics := { p.metrics with
          circuit_breaker_closed := p.metrics.circuit_breaker_closed + 1 } }
    else p

/-- `ConnectionPool::shutdown` (state footprint: clears `alive`, swaps
out the primary waiter list and zeroes the waiter gauge; closing sockets
is an external effect). -/
def shutdown (p : Pool) : Pool :=
  { p with
    alive := false,
    metrics := { p.metrics with waiters_total := 0 } }

/-! ### `acquire` -/

/-- The outcome of `timer->async_wait` as seen through `errc`:
`expired` is `!errc`, `aborted` is `operation_aborted` (a release or
shutdown cancelled the timer), `failed` is any other error code with
its `errc.message()`. -/
inductive TimerResult where
  | expired
  | aborted
  | failed (msg : String)
deriving DecidableEq, Repr

/-- The external inputs consumed by one iteration of the `acquire` loop:
the clock/health-oracle readings of its two `try_acquire_locked` calls,
the identity and timer of the waiter it would enqueue, and the outcome
of the timer wait. -/
structure AcquireRound where
  healthyA : Nat → Bool
  nowA : Int
  healthyB : Nat → Bool
  nowB : Int
  wid : Nat
  timer : Nat
  wake : TimerResult

/-- `Result<Lease>` as far as `acquire` produces it, plus `pending` for
an acquire still suspended when the supplied rounds run out. -/
inductive AcquireResult where
  | ok (lease : LeaseInfo)
  | err (e : Error)
  | pending
deriving DecidableEq, Repr

def shutdown_error : Error := ⟨ErrorCode.Unknown, "Pool is shutting down"⟩

def timeout_error : Error := ⟨ErrorCode.Timeout, "Acquire timeout"⟩

def internal_error (msg : String) : Error :=
  ⟨ErrorCode.Unknown, "Internal error: " ++ msg⟩

/-- Enqueue a waiter into the secondary queue chosen by its reason
(`bucket.waiters.push_back` / `m_global_waiters.push_back`) and bump the
waiter gauge.  The local case goes through `m_buckets[endpoint]`. -/
def enqueue_waiter (ep : Endpoint) (reason : WaitReason) (w : Waiter)
    (p : Pool) : Pool :=
  match reason with
  | WaitReason.EndpointCapacity =>
    let b := (lookupBucket p.buckets ep).getD Bucket.empty
    { p with
      buckets := updateBucket p.buckets ep { b with waiters := b.waiters ++ [w] },
      metrics := { p.metrics with waiters_total := p.metrics.waiters_total + 1 } }
  | WaitReason.GlobalCapacity =>
    { p with
      global_waiters := p.global_waiters ++ [w],
      metrics := { p.metrics with waiters_total := p.metrics.waiters_total + 1 } }

/-- Erase a waiter from its secondary queue via its stable reference
(`queue_it`); modelled by its identity `wid`. -/
def erase_waiter (ep : Endpoint) (reason : WaitReason) (wid : Nat)
    (p : Pool) : Pool :=
  match reason with
  | WaitReason.EndpointCapacity =>
    match lookupBucket p.buckets ep with
    | some b =>
      { p with
        buckets := updateBucket p.buckets ep
          { b with waiters := b.waiters.filter fun w => w.wid != wid } }
    | none => p
  | WaitReason.GlobalCapacity =>
    { p with global_waiters := p.global_waiters.filter fun w => w.wid != wid }

/-- `waiter_iterator->active` at wake-up time: whether the enqueued
waiter is still in its secondary queue with its flag set. -/
def waiter_active (ep : Endpoint) (reason : WaitReason) (wid : Nat)
    (p : Pool) : Bool :=
  match reason with
  | WaitReason.EndpointCapacity =>
    ((lookupBucket p.buckets ep).getD Bucket.empty).waiters.any
      fun w => w.wid == wid && w.active
  | WaitReason.GlobalCapacity =>
    p.global_waiters.any fun w => w.wid == wid && w.active

/-- The loop body of `ConnectionPool::acquire`, one round per iteration,
on an endpoint already normalized at entry.  The source reads the
`alive` atomic once outside and once under the lock; in this quiescent
model both reads see the same value, so they are collapsed into one. -/
def acquire_loop (cfg : Config) (ep : Endpoint) :
    List AcquireRound → Pool → AcquireResult × Pool
  | [], p => (AcquireResult.pending, p)
  | r :: rest, p =>
    match try_acquire_locked cfg r.healthyA r.nowA ep p with
    | (some l, p1) =>
      (AcquireResult.ok l,
       { p1 with metrics := { p1.metrics with
           acquire_success := p1.metrics.acquire_success + 1 } })
    | (none, p1) =>
      if !p1.alive then
        (AcquireResult.err shutdown_error,
         { p1 with metrics := { p1.metrics with
             acquire_shutdown := p1.metrics.acquire_shutdown + 1 } })
      else
        let reason := determine_wait_reason_locked cfg ep p1
        let p2 := enqueue_waiter ep reason ⟨r.wid, true, r.timer⟩ p1
        -- Close the lost-wakeup window: retry under the same lock.
        match try_acquire_locked cfg r.healthyB r.nowB ep p2 with
        | (some l, p3) =>
          let p4 := erase_waiter ep reason r.wid p3
          (AcquireResult.ok l,
           { p4 with metrics := { p4.metrics with
               waiters_total := p4.metrics.waiters_total - 1,
               acquire_success := p4.metrics.acquire_success + 1 } })
        | (none, p3) =>
          -- Suspend on the timer; wake with `r.wake`, then clean up.
          let p4 :=
            if waiter_active ep reason r.wid p3 then
              let q := erase_waiter ep reason r.wid p3
              { q with metrics := { q.metrics with
                  waiters_total := q.metrics.waiters_total - 1 } }
            else p3
          match r.wake with
          | TimerResult.expired =>
            (AcquireResult.err timeout_error,
             { p4 with metrics := { p4.metrics with
                 acquire_timeout := p4.metrics.acquire_timeout + 1 } })
          | TimerResult.aborted => acquire_loop cfg ep rest p4
          | TimerResult.failed msg =>
            (AcquireResult.err (internal_error msg),
             { p4 with metrics := { p4.metrics with
                 acquire_internal_error := p4.metrics.acquire_internal_error + 1 } })

/-- `ConnectionPool::acquire`: normalize once, then loop. -/
def acquire (cfg : Config) (ep : Endpoint) (rounds : List AcquireRound)
    (p : Pool) : AcquireResult × Pool :=
  acquire_loop cfg (normalize_endpoint ep) rounds p

/-! ### `ConnectionPool::Lease` -/

/-- The observable state of a `Lease`.  `upgraded` is the result of
`m_state.lock()`: `none` when the `weak_ptr` cannot be upgraded (pool
state destroyed), `some a` when it can and the `alive` flag reads `a`.
`has_callback` is whether `return_to_pool` holds a function. -/
structure Lease where
  upgraded : Option Bool
  conn : Option Nat
  ep : Endpoint
  ident : Nat
  has_callback : Bool
deriving DecidableEq, Repr

/-- `Lease::reset`: returns the lease after the call together with the
`(endpoint, id)` argument of the `return_to_pool` invocation, when one
happens. -/
def Lease.reset (l : Lease) : Lease × Option (Endpoint × Nat) :=
  match l.conn with
  | none => (l, none)
  | some _ =>
    match l.upgraded with
    | none => ({ l with conn := none }, none)
    | some alive =>
      if !alive then ({ l with conn := none }, none)
      else if l.has_callback then ({ l with conn := none }, some (l.ep, l.ident))
      else ({ l with conn := none }, none)

/-- `Lease::move_from`: the destination receives every member; the
source's `m_conn` is nulled and its `id_` zeroed, its `weak_ptr` and
`std::function` are left moved-from (empty). -/
def Lease.move_from (src : Lease) : Lease × Lease :=
  (src,
   { src with upgraded := none, conn := none, ident := 0, has_callback := false })

/-- Dropping a lease: run `Lease::reset`; if it invoked the callback,
that is `ConnectionPool::release` on the pool. -/
def dropLease (healthy : Nat → Bool) (now : Int) (p : Pool) (l : Lease) : Pool :=
  match l.reset.2 with
  | none => p
  | some (ep, ident) => (release healthy now ep ident p).1

/-! ### Operation sequences -/

/-- One public pool operation together with the external inputs (clock
readings, health-check answers, timer outcomes) it consumes. -/
inductive PoolOp where
  | tryAcquireOp (healthy : Nat → Bool) (now : Int) (ep : Endpoint)
  | acquireOp (rounds : List AcquireRound) (ep : Endpoint)
  | releaseOp (healthy : Nat → Bool) (now : Int) (ep : Endpoint) (ident : Nat)
  | reportFailureOp (now : Int) (ep : Endpoint)
  | reportSuccessOp (ep : Endpoint)

def applyOp (cfg : Config) (p : Pool) : PoolOp → Pool
  | PoolOp.tryAcquireOp h now ep => (try_acquire cfg h now ep p).2
  | PoolOp.acquireOp rounds ep => (acquire cfg ep rounds p).2
  | PoolOp.releaseOp h now ep ident => (release h now ep ident p).1
  | PoolOp.reportFailureOp now ep => report_connection_failure cfg now ep p
  | PoolOp.reportSuccessOp ep => report_connection_success ep p

/-- Run a sequence of operations from a fresh pool. -/
def runOps (cfg : Config) (ops : List PoolOp) : Pool :=
  ops.foldl (applyOp cfg) freshPool


/-! ### Association-list lemmas -/

/-! Definitions supporting the verification: the waiter probe used to
state the release-priority claim, the capacity measures, and concrete
fixtures (configurations, endpoints, operation sequences) used by the
witness and counterexample theorems. -/

def firstActive : List Waiter → Option Waiter
  | [] => none
  | w :: rest => if w.active then some w else firstActive rest

def bucketCount (b : Bucket) : Nat := b.in_use.length + b.idle.length

/-- P1 of the spec plus the P3 accounting needed to relate the source's
`m_total_in_use` counter to the create-path capacity guard. -/
def CapInv (cfg : Config) (bs : List (Endpoint × Bucket)) (tiu : Nat) : Prop :=
  (∀ q ∈ bs, bucketCount q.2 ≤ cfg.max_connections_per_endpoint) ∧
  sumBy bucketCount bs ≤ cfg.max_total_connections ∧
  tiu = sumBy (fun b => b.in_use.length) bs

def CapacityInv (cfg : Config) (p : Pool) : Prop :=
  CapInv cfg p.buckets p.total_in_use


def epA : Endpoint := ⟨"a", "80", false⟩

def epAu : Endpoint := ⟨"A", "80", false⟩

def epB : Endpoint := ⟨"b", "80", false⟩

def hOK : Nat → Bool := fun _ => true

def cfgT : Config := ⟨10, 5, 1000, true, true, 1000, 1000000, 5, 30000⟩

def cfgReuse2 : Config := ⟨10, 5, 1000, true, true, 2, 1000000, 5, 30000⟩

def cfgTtl0 : Config := ⟨10, 5, 0, true, true, 1000, 1000000, 5, 30000⟩

def cfgTotal0 : Config := ⟨0, 5, 1000, true, true, 1000, 1000000, 5, 30000⟩

def cfgBreaker1 : Config := ⟨10, 5, 1000, true, true, 1000, 1000000, 1, 1000⟩

def fourOps : List PoolOp :=
  [PoolOp.tryAcquireOp hOK 0 epA, PoolOp.tryAcquireOp hOK 0 epA,
   PoolOp.releaseOp hOK 0 epA 1, PoolOp.releaseOp hOK 0 epA 2]

def cycles2 : List PoolOp :=
  [PoolOp.tryAcquireOp hOK 0 epA, PoolOp.releaseOp hOK 0 epA 1,
   PoolOp.tryAcquireOp hOK 0 epA, PoolOp.releaseOp hOK 0 epA 2]

def stale9 : List PoolOp :=
  [PoolOp.tryAcquireOp hOK 0 epB, PoolOp.releaseOp hOK 0 epB 1]

def roundOK : AcquireRound := ⟨hOK, 0, hOK, 0, 7, 42, TimerResult.expired⟩

def roundBoom : AcquireRound := ⟨hOK, 0, hOK, 0, 7, 42, TimerResult.failed "boom"⟩

def wInactive : Waiter := ⟨0, false, 10⟩

def wActive1 : Waiter := ⟨1, true, 11⟩

def wActive2 : Waiter := ⟨2, true, 12⟩

def gActive : Waiter := ⟨3, true, 13⟩

def bucketW : Bucket := ⟨[], [(1, 5)], [wInactive, wActive1, wActive2], 0, 0⟩

def poolW : Pool := ⟨true, [(epA, bucketW)], [gActive], 1, 2, 2, Metrics.init⟩

def leaseDead : Lease := ⟨some false, some 7, epA, 9, true⟩

theorem lookupBucket_updateBucket_self (bs : List (Endpoint × Bucket))
    (ep : Endpoint) (b : Bucket) :
    lookupBucket (updateBucket bs ep b) ep = some b := by
  induction bs with
  | nil => simp [updateBucket, lookupBucket]
  | cons q rest ih =>
    by_cases h : q.1 = ep
    · simp [updateBucket, h, lookupBucket]
    · simp [updateBucket, h, lookupBucket, ih]

theorem mem_updateBucket {bs : List (Endpoint × Bucket)} {ep : Endpoint}
    {b : Bucket} {q : Endpoint × Bucket} (h : q ∈ updateBucket bs ep b) :
    q = (ep, b) ∨ q ∈ bs := by
  induction bs with
  | nil => simpa [updateBucket] using h
  | cons q' rest ih =>
    by_cases h' : q'.1 = ep
    · simp [updateBucket, h'] at h
      rcases h with h | h
      · exact Or.inl h
      · exact Or.inr (List.mem_cons_of_mem _ h)
    · simp [updateBucket, h'] at h
      rcases h with h | h
      · exact Or.inr (by simp [h])
      · rcases ih h with h | h
        · exact Or.inl h
        · exact Or.inr (List.mem_cons_of_mem _ h)

theorem lookupBucket_mem {bs : List (Endpoint × Bucket)} {ep : Endpoint}
    {b : Bucket} (h : lookupBucket bs ep = some b) : (ep, b) ∈ bs := by
  induction bs with
  | nil => simp [lookupBucket] at h
  | cons q rest ih =>
    by_cases h' : q.1 = ep
    · simp [lookupBucket, h'] at h
      subst h
      simp [← h']
    · simp [lookupBucket, h'] at h
      exact List.mem_cons_of_mem _ (ih h)

theorem sumBy_updateBucket_some {bs : List (Endpoint × Bucket)} {ep : Endpoint}
    {b : Bucket} (f : Bucket → Nat) (b' : Bucket)
    (h : lookupBucket bs ep = some b) :
    sumBy f (updateBucket bs ep b') + f b = sumBy f bs + f b' := by
  induction bs with
  | nil => simp [lookupBucket] at h
  | cons q rest ih =>
    by_cases h' : q.1 = ep
    · simp [lookupBucket, h'] at h
      subst h
      simp [updateBucket, h', sumBy]
      omega
    · simp [lookupBucket, h'] at h
      have := ih h
      simp [updateBucket, h', sumBy] at this ⊢
      omega

theorem sumBy_updateBucket_none {bs : List (Endpoint × Bucket)} {ep : Endpoint}
    (f : Bucket → Nat) (b' : Bucket) (h : lookupBucket bs ep = none) :
    sumBy f (updateBucket bs ep b') = sumBy f bs + f b' := by
  induction bs with
  | nil => simp [updateBucket, sumBy]
  | cons q rest ih =>
    by_cases h' : q.1 = ep
    · simp [lookupBucket, h'] at h
    · simp [lookupBucket, h'] at h
      have := ih h
      simp [updateBucket, h', sumBy] at this ⊢
      omega

theorem sumBy_mem_le {bs : List (Endpoint × Bucket)} {q : Endpoint × Bucket}
    (f : Bucket → Nat) (h : q ∈ bs) : f q.2 ≤ sumBy f bs := by
  induction bs with
  | nil => simp at h
  | cons q' rest ih =>
    rcases List.mem_cons.mp h with h | h
    · subst h; simp [sumBy]
    · have := ih h
      simp [sumBy] at this ⊢
      omega

theorem sumBy_map_le (f : Bucket → Nat) (g : Bucket → Bucket)
    (bs : List (Endpoint × Bucket)) (h : ∀ b, f (g b) ≤ f b) :
    sumBy f (bs.map fun q => (q.1, g q.2)) ≤ sumBy f bs := by
  induction bs with
  | nil => simp [sumBy]
  | cons q rest ih =>
    have := h q.2
    simp [sumBy] at ih ⊢
    omega

theorem sumBy_map_eq (f : Bucket → Nat) (g : Bucket → Bucket)
    (bs : List (Endpoint × Bucket)) (h : ∀ b, f (g b) = f b) :
    sumBy f (bs.map fun q => (q.1, g q.2)) = sumBy f bs := by
  induction bs with
  | nil => simp [sumBy]
  | cons q rest ih =>
    have := h q.2
    simp [sumBy] at ih ⊢
    omega

/-- `sumBy` splits over the two halves of `bucketCount`. -/
theorem sumBy_add (f g : Bucket → Nat) (bs : List (Endpoint × Bucket)) :
    sumBy (fun b => f b + g b) bs = sumBy f bs + sumBy g bs := by
  induction bs with
  | nil => simp [sumBy]
  | cons q rest ih =>
    simp [sumBy] at ih ⊢
    omega

/-! ### In-use map lemmas -/

theorem eraseId_length {l : List (Nat × Nat)} {ident : Nat} {c : Nat}
    (h : findConn l ident = some c) :
    (eraseId l ident).length + 1 = l.length := by
  induction l with
  | nil => simp [findConn] at h
  | cons q rest ih =>
    by_cases h' : q.1 = ident
    · simp [eraseId, h']
    · simp [findConn, h'] at h
      simp [eraseId, h', ih h]

/-! ### Prune lemmas -/

theorem pruneIdleList_drop (ttl now : Int) (l : List IdleEntry) :
    (pruneIdleList ttl now l).1 = l.drop (pruneIdleList ttl now l).2 := by
  induction l with
  | nil => simp [pruneIdleList]
  | cons e rest ih =>
    by_cases h : now - e.last_used < ttl
    · simp [pruneIdleList, h]
    · simp [pruneIdleList, h, ih]

theorem pruneIdleList_length (ttl now : Int) (l : List IdleEntry) :
    (pruneIdleList ttl now l).1.length ≤ l.length := by
  rw [pruneIdleList_drop]
  simp

theorem pruneIdleList_subset {ttl now : Int} {l : List IdleEntry}
    {e : IdleEntry} (h : e ∈ (pruneIdleList ttl now l).1) : e ∈ l := by
  rw [pruneIdleList_drop] at h
  exact List.mem_of_mem_drop h

theorem pruneIdleList_fresh {ttl now : Int}
    {l : List IdleEntry}
    (hsort : l.Pairwise fun a b => a.last_used ≤ b.last_used)
    {e : IdleEntry} (h : e ∈ (pruneIdleList ttl now l).1) :
    now - e.last_used < ttl := by
  induction l with
  | nil => simp [pruneIdleList] at h
  | cons x rest ih =>
    rcases List.pairwise_cons.mp hsort with ⟨hx, hrest⟩
    by_cases hkeep : now - x.last_used < ttl
    · simp [pruneIdleList, hkeep] at h
      rcases h with h | h
      · subst h; exact hkeep
      · have := hx e h
        omega
    · simp [pruneIdleList, hkeep] at h
      exact ih hrest h


theorem reuseScan_none_rest {cfg : Config} {healthy : Nat → Bool} {now : Int}
    {l : List IdleEntry} {m : Metrics}
    (h : (reuseScan cfg healthy now l m).1 = none) :
    (reuseScan cfg healthy now l m).2.1 = [] := by
  induction l generalizing m with
  | nil => simp [reuseScan]
  | cons e rest ih =>
    by_cases h1 : healthy e.conn
    · by_cases h2 : cfg.max_connection_reuse_count ≤ e.reuse_count
      · simp [reuseScan, h1, h2] at h ⊢
        exact ih h
      · by_cases h3 : cfg.max_connection_age < now - e.created
        · simp [reuseScan, h1, h2, h3] at h ⊢
          exact ih h
        · simp [reuseScan, h1, h2, h3] at h
    · simp [reuseScan, h1] at h ⊢
      exact ih h

theorem reuseScan_some_facts {cfg : Config} {healthy : Nat → Bool} {now : Int}
    {l : List IdleEntry} {m : Metrics} {e : IdleEntry}
    (h : (reuseScan cfg healthy now l m).1 = some e) :
    (reuseScan cfg healthy now l m).2.1.length + 1 ≤ l.length ∧
    (∀ x ∈ (reuseScan cfg healthy now l m).2.1, x ∈ l) ∧ e ∈ l := by
  induction l generalizing m with
  | nil => simp [reuseScan] at h
  | cons e' rest ih =>
    by_cases h1 : healthy e'.conn
    · by_cases h2 : cfg.max_connection_reuse_count ≤ e'.reuse_count
      · simp [reuseScan, h1, h2] at h ⊢
        rcases ih h with ⟨hl, hs, he⟩
        exact ⟨by omega, fun x hx => Or.inr (hs x hx), Or.inr he⟩
      · by_cases h3 : cfg.max_connection_age < now - e'.created
        · simp [reuseScan, h1, h2, h3] at h ⊢
          rcases ih h with ⟨hl, hs, he⟩
          exact ⟨by omega, fun x hx => Or.inr (hs x hx), Or.inr he⟩
        · have h11 : (reuseScan cfg healthy now (e' :: rest) m).1 = some e' := by
            simp [reuseScan, h1, h2, h3]
          have h21 : (reuseScan cfg healthy now (e' :: rest) m).2.1 = rest := by
            simp [reuseScan, h1, h2, h3]
          have hee : e' = e := by
            rw [h11] at h
            exact Option.some.inj h
          subst hee
          refine ⟨by simp [h21], ?_, List.mem_cons_self _ _⟩
          intro x hx
          rw [h21] at hx
          exact List.mem_cons_of_mem _ hx
    · simp [reuseScan, h1] at h ⊢
      rcases ih h with ⟨hl, hs, he⟩
      exact ⟨by omega, fun x hx => Or.inr (hs x hx), Or.inr he⟩


/-! ### The capacity invariant -/

theorem capInv_update_conserve {cfg : Config} {bs : List (Endpoint × Bucket)}
    {tiu : Nat} {ep : Endpoint} {b b' : Bucket} (h : CapInv cfg bs tiu)
    (hb : lookupBucket bs ep = some b)
    (hcount : bucketCount b' ≤ bucketCount b)
    (hin : b'.in_use.length = b.in_use.length) :
    CapInv cfg (updateBucket bs ep b') tiu := by
  obtain ⟨hper, hsum, hacc⟩ := h
  refine ⟨?_, ?_, ?_⟩
  · intro q hq
    rcases mem_updateBucket hq with rfl | hq
    · exact le_trans hcount (hper _ (lookupBucket_mem hb))
    · exact hper _ hq
  · have := sumBy_updateBucket_some bucketCount b' hb
    omega
  · have := sumBy_updateBucket_some (fun b => b.in_use.length) b' hb
    simp only [hin] at this
    omega

theorem capInv_update_handout {cfg : Config} {bs : List (Endpoint × Bucket)}
    {tiu : Nat} {ep : Endpoint} {b b' : Bucket} (h : CapInv cfg bs tiu)
    (hb : lookupBucket bs ep = some b)
    (hcount : bucketCount b' ≤ bucketCount b)
    (hin : b'.in_use.length = b.in_use.length + 1) :
    CapInv cfg (updateBucket bs ep b') (tiu + 1) := by
  obtain ⟨hper, hsum, hacc⟩ := h
  refine ⟨?_, ?_, ?_⟩
  · intro q hq
    rcases mem_updateBucket hq with rfl | hq
    · exact le_trans hcount (hper _ (lookupBucket_mem hb))
    · exact hper _ hq
  · have := sumBy_updateBucket_some bucketCount b' hb
    omega
  · have := sumBy_updateBucket_some (fun b => b.in_use.length) b' hb
    simp only [hin] at this
    omega

theorem capInv_update_create {cfg : Config} {bs : List (Endpoint × Bucket)}
    {tiu : Nat} {ep : Endpoint} {b b' : Bucket} (h : CapInv cfg bs tiu)
    (hb : lookupBucket bs ep = some b)
    (hcount : bucketCount b' = bucketCount b + 1)
    (hin : b'.in_use.length = b.in_use.length + 1)
    (hcap : bucketCount b < cfg.max_connections_per_endpoint)
    (hglobal : sumBy bucketCount bs < cfg.max_total_connections) :
    CapInv cfg (updateBucket bs ep b') (tiu + 1) := by
  obtain ⟨hper, hsum, hacc⟩ := h
  refine ⟨?_, ?_, ?_⟩
  · intro q hq
    rcases mem_updateBucket hq with rfl | hq
    · show bucketCount b' ≤ cfg.max_connections_per_endpoint
      omega
    · exact hper _ hq
  · have := sumBy_updateBucket_some bucketCount b' hb
    omega
  · have := sumBy_updateBucket_some (fun b => b.in_use.length) b' hb
    simp only [hin] at this
    omega

/-- `m_buckets[endpoint]` (get-or-default-insert) preserves the invariant. -/
theorem capInv_insert {cfg : Config} {bs : List (Endpoint × Bucket)}
    {tiu : Nat} (ep : Endpoint) (h : CapInv cfg bs tiu) :
    CapInv cfg (updateBucket bs ep ((lookupBucket bs ep).getD Bucket.empty)) tiu := by
  obtain ⟨hper, hsum, hacc⟩ := h
  cases hb : lookupBucket bs ep with
  | some b =>
    simp only [hb, Option.getD_some]
    exact capInv_update_conserve ⟨hper, hsum, hacc⟩ hb le_rfl rfl
  | none =>
    simp only [hb, Option.getD_none]
    refine ⟨?_, ?_, ?_⟩
    · intro q hq
      rcases mem_updateBucket hq with rfl | hq
      · simp [bucketCount, Bucket.empty]
      · exact hper _ hq
    · have h0 : bucketCount Bucket.empty = 0 := rfl
      have := sumBy_updateBucket_none bucketCount Bucket.empty hb
      omega
    · have h0 : Bucket.empty.in_use.length = 0 := rfl
      have := sumBy_updateBucket_none (fun b => b.in_use.length) Bucket.empty hb
      simp only [] at this
      omega



theorem sumBy_bucketCount (bs : List (Endpoint × Bucket)) :
    sumBy bucketCount bs =
      sumBy (fun b => b.in_use.length) bs + sumBy (fun b => b.idle.length) bs := by
  induction bs with
  | nil => simp [sumBy]
  | cons q rest ih =>
    simp [sumBy, bucketCount] at ih ⊢
    omega

theorem prune_frame (cfg : Config) (now : Int) (p : Pool) :
    (prune_idle_locked cfg now p).alive = p.alive ∧
    (prune_idle_locked cfg now p).total_in_use = p.total_in_use ∧
    (prune_idle_locked cfg now p).next_id = p.next_id ∧
    (prune_idle_locked cfg now p).next_conn = p.next_conn ∧
    (prune_idle_locked cfg now p).global_waiters = p.global_waiters := by
  unfold prune_idle_locked
  split <;> simp

theorem prune_preserves (cfg : Config) (now : Int) (p : Pool)
    (h : CapacityInv cfg p) : CapacityInv cfg (prune_idle_locked cfg now p) := by
  unfold CapacityInv CapInv at h ⊢
  unfold prune_idle_locked
  split
  · exact h
  · obtain ⟨hper, hsum, hacc⟩ := h
    dsimp only
    refine ⟨?_, ?_, ?_⟩
    · intro q hq
      rcases List.mem_map.mp hq with ⟨q0, hq0, rfl⟩
      have := pruneIdleList_length cfg.connection_idle_ttl now q0.2.idle
      have := hper _ hq0
      simp [bucketCount] at *
      omega
    · have hle := sumBy_map_le bucketCount
        (fun b => { b with idle := (pruneIdleList cfg.connection_idle_ttl now b.idle).1 })
        p.buckets
        (fun b => by
          have := pruneIdleList_length cfg.connection_idle_ttl now b.idle
          simp [bucketCount]
          omega)
      exact le_trans hle hsum
    · have heq := sumBy_map_eq (fun b => b.in_use.length)
        (fun b => { b with idle := (pruneIdleList cfg.connection_idle_ttl now b.idle).1 })
        p.buckets (fun b => rfl)
      rw [heq]
      exact hacc

theorem try_acquire_locked_preserves (cfg : Config) (healthy : Nat → Bool)
    (now : Int) (ep : Endpoint) (p : Pool) (h : CapacityInv cfg p) :
    CapacityInv cfg (try_acquire_locked cfg healthy now ep p).2 := by
  unfold try_acquire_locked
  by_cases ha : p.alive
  · simp only [ha, Bool.not_true, Bool.false_eq_true, if_false, Bool.not_eq_true']
    have h1 : CapacityInv cfg (prune_idle_locked cfg now p) :=
      prune_preserves cfg now p h
    set p1 := prune_idle_locked cfg now p with hp1
    set b0 := (lookupBucket p1.buckets ep).getD Bucket.empty with hb0
    have h2 : CapInv cfg (updateBucket p1.buckets ep b0) p1.total_in_use :=
      capInv_insert ep h1
    have hlook : lookupBucket (updateBucket p1.buckets ep b0) ep = some b0 :=
      lookupBucket_updateBucket_self _ _ _
    by_cases hc : b0.is_circuit_open now
    · simp only [hc, if_true]
      exact h2
    · simp only [hc, if_false, Bool.false_eq_true]
      rcases hscan : reuseScan cfg healthy now b0.idle
          { p1 with buckets := updateBucket p1.buckets ep b0 }.metrics
        with ⟨o, rest, m⟩
      cases o with
      | some e =>
        simp only [hscan]
        have hfacts := reuseScan_some_facts (l := b0.idle)
          (m := { p1 with buckets := updateBucket p1.buckets ep b0 }.metrics)
          (e := e) (by rw [hscan])
        rw [hscan] at hfacts
        dsimp only at hfacts ⊢
        refine capInv_update_handout h2 hlook ?_ ?_
        · simp [bucketCount]
          omega
        · simp
      | none =>
        simp only [hscan]
        have hrest : rest = [] := by
          have := reuseScan_none_rest (l := b0.idle)
            (m := { p1 with buckets := updateBucket p1.buckets ep b0 }.metrics)
            (by rw [hscan])
          rw [hscan] at this
          exact this
        subst hrest
        have h3 : CapInv cfg
            (updateBucket (updateBucket p1.buckets ep b0) ep { b0 with idle := [] })
            p1.total_in_use :=
          capInv_update_conserve h2 hlook
            (by simp [bucketCount]) rfl
        have hlook3 : lookupBucket
            (updateBucket (updateBucket p1.buckets ep b0) ep { b0 with idle := [] }) ep
            = some { b0 with idle := [] } :=
          lookupBucket_updateBucket_self _ _ _
        split
        · exact h3
        · split
          · exact h3
          · rename_i hcap1 hcap2
            refine capInv_update_create h3 hlook3 ?_ ?_ ?_ ?_
            · simp [bucketCount]
            · simp
            · simp [bucketCount] at hcap1 ⊢
              omega
            · obtain ⟨hper3, hsum3, hacc3⟩ := h3
              rw [sumBy_bucketCount]
              unfold total_idle_locked at hcap2
              dsimp only at hcap2
              omega
  · simp only [Bool.not_eq_true] at ha
    simp [ha]
    exact h


theorem capInv_to_pool {cfg : Config} {bs : List (Endpoint × Bucket)}
    {tiu : Nat} {p' : Pool} (h : CapInv cfg bs tiu) (hb : p'.buckets = bs)
    (ht : p'.total_in_use = tiu) : CapacityInv cfg p' := by
  unfold CapacityInv
  rw [hb, ht]
  exact h

theorem capInv_update_fresh0 {cfg : Config} {bs : List (Endpoint × Bucket)}
    {tiu : Nat} {ep : Endpoint} {b' : Bucket} (h : CapInv cfg bs tiu)
    (hb : lookupBucket bs ep = none) (hcount : bucketCount b' = 0)
    (hin : b'.in_use.length = 0) :
    CapInv cfg (updateBucket bs ep b') tiu := by
  obtain ⟨hper, hsum, hacc⟩ := h
  refine ⟨?_, ?_, ?_⟩
  · intro q hq
    rcases mem_updateBucket hq with rfl | hq
    · show bucketCount b' ≤ _
      omega
    · exact hper _ hq
  · have := sumBy_updateBucket_none bucketCount b' hb
    omega
  · have := sumBy_updateBucket_none (fun b => b.in_use.length) b' hb
    simp only [] at this
    omega

theorem capInv_update_release {cfg : Config} {bs : List (Endpoint × Bucket)}
    {tiu : Nat} {ep : Endpoint} {b b' : Bucket} (h : CapInv cfg bs tiu)
    (hb : lookupBucket bs ep = some b)
    (hcount : bucketCount b' ≤ bucketCount b)
    (hin : b'.in_use.length + 1 = b.in_use.length) :
    CapInv cfg (updateBucket bs ep b') (tiu - 1) := by
  obtain ⟨hper, hsum, hacc⟩ := h
  have hmem := lookupBucket_mem hb
  have hge := sumBy_mem_le (fun b => b.in_use.length) hmem
  refine ⟨?_, ?_, ?_⟩
  · intro q hq
    rcases mem_updateBucket hq with rfl | hq
    · show bucketCount b' ≤ _
      exact le_trans hcount (hper _ hmem)
    · exact hper _ hq
  · have := sumBy_updateBucket_some bucketCount b' hb
    omega
  · have := sumBy_updateBucket_some (fun b => b.in_use.length) b' hb
    simp only [] at this hge
    omega

theorem popGlobal_preserves (p : Pool) {cfg : Config} (h : CapacityInv cfg p) :
    CapacityInv cfg (popGlobal p).2 := by
  unfold popGlobal
  rcases hpa : popActive p.global_waiters with ⟨o, rest⟩
  cases o <;> simp only [hpa] <;> exact capInv_to_pool h rfl rfl

theorem pop_waiter_preserves (ep : Endpoint) (p : Pool) {cfg : Config}
    (h : CapacityInv cfg p) :
    CapacityInv cfg (pop_waiter_for_endpoint_locked ep p).2 := by
  unfold pop_waiter_for_endpoint_locked
  cases hb : lookupBucket p.buckets ep with
  | none =>
    simp only
    exact popGlobal_preserves p h
  | some b =>
    rcases hpa : popActive b.waiters with ⟨o, rest⟩
    cases o with
    | some w =>
      simp only [hpa]
      refine capInv_to_pool (capInv_update_conserve h hb ?_ ?_) rfl rfl
      · exact le_rfl
      · rfl
    | none =>
      simp only [hpa]
      refine popGlobal_preserves _
        (capInv_to_pool (capInv_update_conserve h hb ?_ ?_) rfl rfl)
      · exact le_rfl
      · rfl

theorem release_preserves (healthy : Nat → Bool) (now : Int) (ep : Endpoint)
    (ident : Nat) (p : Pool) {cfg : Config} (h : CapacityInv cfg p) :
    CapacityInv cfg (release healthy now ep ident p).1 := by
  unfold release
  cases hb : lookupBucket p.buckets ep with
  | none =>
    exact capInv_to_pool h rfl rfl
  | some b =>
    dsimp only
    cases hc : findConn b.in_use ident with
    | none =>
      exact capInv_to_pool h rfl rfl
    | some c =>
      have hlen := eraseId_length hc
      by_cases hh : healthy c
      · simp only [hh, if_true]
        refine pop_waiter_preserves ep _ ?_
        refine capInv_to_pool ?_ rfl rfl
        refine capInv_update_release h hb ?_ ?_
        · simp [bucketCount]
          omega
        · simp
          omega
      · simp only [hh, if_false, Bool.false_eq_true]
        refine pop_waiter_preserves ep _ ?_
        refine capInv_to_pool ?_ rfl rfl
        refine capInv_update_release h hb ?_ ?_
        · simp [bucketCount]
          omega
        · simp
          omega

theorem enqueue_waiter_preserves (ep : Endpoint) (reason : WaitReason)
    (w : Waiter) (p : Pool) {cfg : Config} (h : CapacityInv cfg p) :
    CapacityInv cfg (enqueue_waiter ep reason w p) := by
  cases reason with
  | EndpointCapacity =>
    unfold enqueue_waiter
    cases hb : lookupBucket p.buckets ep with
    | none =>
      simp only [hb, Option.getD_none]
      refine capInv_to_pool (capInv_update_fresh0 h hb ?_ ?_) rfl rfl
      · rfl
      · rfl
    | some b =>
      simp only [hb, Option.getD_some]
      refine capInv_to_pool (capInv_update_conserve h hb ?_ ?_) rfl rfl
      · exact le_rfl
      · rfl
  | GlobalCapacity =>
    exact capInv_to_pool h rfl rfl

theorem erase_waiter_preserves (ep : Endpoint) (reason : WaitReason)
    (wid : Nat) (p : Pool) {cfg : Config} (h : CapacityInv cfg p) :
    CapacityInv cfg (erase_waiter ep reason wid p) := by
  cases reason with
  | EndpointCapacity =>
    unfold erase_waiter
    cases hb : lookupBucket p.buckets ep with
    | none => exact h
    | some b =>
      simp only [hb]
      refine capInv_to_pool (capInv_update_conserve h hb ?_ ?_) rfl rfl
      · exact le_rfl
      · rfl
  | GlobalCapacity =>
    exact capInv_to_pool h rfl rfl

theorem report_failure_preserves (cfg : Config) (now : Int) (ep : Endpoint)
    (p : Pool) (h : CapacityInv cfg p) :
    CapacityInv cfg (report_connection_failure cfg now ep p) := by
  unfold report_connection_failure
  cases hb : lookupBucket p.buckets ep with
  | none =>
    simp only [hb, Option.getD_none]
    split
    · refine capInv_to_pool (capInv_update_fresh0 h hb ?_ ?_) rfl rfl
      · rfl
      · rfl
    · refine capInv_to_pool (capInv_update_fresh0 h hb ?_ ?_) rfl rfl
      · rfl
      · rfl
  | some b =>
    simp only [hb, Option.getD_some]
    split
    · refine capInv_to_pool (capInv_update_conserve h hb ?_ ?_) rfl rfl
      · exact le_rfl
      · rfl
    · refine capInv_to_pool (capInv_update_conserve h hb ?_ ?_) rfl rfl
      · exact le_rfl
      · rfl

theorem report_success_preserves (ep : Endpoint) (p : Pool) {cfg : Config}
    (h : CapacityInv cfg p) :
    CapacityInv cfg (report_connection_success ep p) := by
  unfold report_connection_success
  cases hb : lookupBucket p.buckets ep with
  | none => exact h
  | some b =>
    simp only
    split
    · refine capInv_to_pool (capInv_update_conserve h hb ?_ ?_) rfl rfl
      · exact le_rfl
      · rfl
    · exact h

theorem acquire_loop_preserves (cfg : Config) (ep : Endpoint)
    (rounds : List AcquireRound) (p : Pool) (h : CapacityInv cfg p) :
    CapacityInv cfg (acquire_loop cfg ep rounds p).2 := by
  induction rounds generalizing p with
  | nil => exact h
  | cons r rest ih =>
    unfold acquire_loop
    rcases h1 : try_acquire_locked cfg r.healthyA r.nowA ep p with ⟨o1, p1⟩
    have hp1 : CapacityInv cfg p1 := by
      have := try_acquire_locked_preserves cfg r.healthyA r.nowA ep p h
      rw [h1] at this
      exact this
    cases o1 with
    | some l =>
      exact capInv_to_pool hp1 rfl rfl
    | none =>
      simp only
      by_cases ha : p1.alive
      · simp only [ha, Bool.not_true, Bool.false_eq_true, if_false]
        rcases h2 : try_acquire_locked cfg r.healthyB r.nowB ep
            (enqueue_waiter ep (determine_wait_reason_locked cfg ep p1)
              ⟨r.wid, true, r.timer⟩ p1) with ⟨o2, p2⟩
        have hp2 : CapacityInv cfg p2 := by
          have := try_acquire_locked_preserves cfg r.healthyB r.nowB ep
            (enqueue_waiter ep (determine_wait_reason_locked cfg ep p1)
              ⟨r.wid, true, r.timer⟩ p1)
            (enqueue_waiter_preserves _ _ _ _ hp1)
          rw [h2] at this
          exact this
        cases o2 with
        | some l =>
          exact capInv_to_pool
            (erase_waiter_preserves _ _ _ _ hp2) rfl rfl
        | none =>
          simp only
          have hp4 : CapacityInv cfg
              (if waiter_active ep (determine_wait_reason_locked cfg ep p1) r.wid p2
               then
                 { erase_waiter ep (determine_wait_reason_locked cfg ep p1) r.wid p2 with
                   metrics := { (erase_waiter ep (determine_wait_reason_locked cfg ep p1)
                       r.wid p2).metrics with
                     waiters_total := (erase_waiter ep
                       (determine_wait_reason_locked cfg ep p1) r.wid p2).metrics.waiters_total - 1 } }
               else p2) := by
            split
            · exact capInv_to_pool (erase_waiter_preserves _ _ _ _ hp2) rfl rfl
            · exact hp2
          cases r.wake with
          | expired => exact capInv_to_pool hp4 rfl rfl
          | aborted => exact ih _ hp4
          | failed msg => exact capInv_to_pool hp4 rfl rfl
      · simp only [ha]
        simp only [Bool.not_eq_true] at ha
        simp [ha]
        exact capInv_to_pool hp1 rfl rfl

theorem applyOp_preserves (cfg : Config) (p : Pool) (op : PoolOp)
    (h : CapacityInv cfg p) : CapacityInv cfg (applyOp cfg p op) := by
  cases op with
  | tryAcquireOp hh now ep =>
    exact try_acquire_locked_preserves cfg hh now (normalize_endpoint ep) p h
  | acquireOp rounds ep =>
    exact acquire_loop_preserves cfg (normalize_endpoint ep) rounds p h
  | releaseOp hh now ep ident =>
    exact release_preserves hh now ep ident p h
  | reportFailureOp now ep =>
    exact report_failure_preserves cfg now ep p h
  | reportSuccessOp ep =>
    exact report_success_preserves ep p h

theorem freshPool_capacityInv (cfg : Config) : CapacityInv cfg freshPool := by
  refine ⟨?_, ?_, ?_⟩ <;> simp [freshPool, sumBy]

theorem foldl_preserves (cfg : Config) (ops : List PoolOp) (p : Pool)
    (h : CapacityInv cfg p) :
    CapacityInv cfg (ops.foldl (applyOp cfg) p) := by
  induction ops generalizing p with
  | nil => exact h
  | cons op rest ih =>
    exact ih _ (applyOp_preserves cfg p op h)

theorem runOps_capacityInv (cfg : Config) (ops : List PoolOp) :
    CapacityInv cfg (runOps cfg ops) :=
  foldl_preserves cfg ops freshPool (freshPool_capacityInv cfg)




theorem popActive_first (l : List Waiter) : (popActive l).1 = firstActive l := by
  induction l with
  | nil => rfl
  | cons w rest ih =>
    by_cases h : w.active
    · simp [popActive, firstActive, h]
    · simp [popActive, firstActive, h, ih]

theorem popActive_some {l : List Waiter} {w : Waiter}
    (h : firstActive l = some w) : ∃ rest, popActive l = (some w, rest) := by
  induction l with
  | nil => simp [firstActive] at h
  | cons x rest ih =>
    by_cases hx : x.active
    · simp [firstActive, hx] at h
      subst h
      exact ⟨rest, by simp [popActive, hx]⟩
    · simp [firstActive, hx] at h
      rcases ih h with ⟨r, hr⟩
      exact ⟨r, by simp [popActive, hx, hr]⟩

/-- Claim C6: waiter selection at release.  `release` captures at most
one timer by construction (its result carries an `Option Nat`); when the
released id is present and the bucket of the endpoint holds at least one
active local waiter, the timer captured (hence the waiter woken) is that
of the frontmost active local waiter, and the global waiter queue is
left untouched. -/
theorem C6_release_wakes_frontmost_local (healthy : Nat → Bool) (now : Int)
    (ep : Endpoint) (ident : Nat) (p : Pool) (b : Bucket) (c : Nat) (w : Waiter)
    (hb : lookupBucket p.buckets ep = some b)
    (hc : findConn b.in_use ident = some c)
    (hw : firstActive b.waiters = some w) :
    (release healthy now ep ident p).2 = some w.timer ∧
    (release healthy now ep ident p).1.global_waiters = p.global_waiters := by
  rcases popActive_some hw with ⟨rest, hpa⟩
  unfold release
  simp only [hb, hc]
  by_cases hh : healthy c
  · simp only [hh, if_true]
    unfold pop_waiter_for_endpoint_locked
    rw [lookupBucket_updateBucket_self]
    simp only [hpa]
    exact ⟨trivial, trivial⟩
  · simp only [hh, if_false, Bool.false_eq_true]
    unfold pop_waiter_for_endpoint_locked
    rw [lookupBucket_updateBucket_self]
    simp only [hpa]
    exact ⟨trivial, trivial⟩

/-- Claim C7: an inert lease drop is a no-op.  If the connection pointer
of a lease is null, or its weak reference to the pool state cannot be
upgraded, or the alive flag reads false, then `Lease::reset` never
invokes the release callback and dropping the lease leaves the pool
unchanged; a moved-from lease has a null connection pointer and id 0,
and dropping it is likewise a no-op. -/
theorem C7_inert_lease_noop (healthy : Nat → Bool) (now : Int) (p : Pool) (l : Lease)
    (h : l.conn = none ∨ l.upgraded = none ∨ l.upgraded = some false) :
    l.reset.2 = none ∧ dropLease healthy now p l = p ∧
    (Lease.move_from l).2.conn = none ∧ (Lease.move_from l).2.ident = 0 ∧
    dropLease healthy now p (Lease.move_from l).2 = p := by
  have hreset : l.reset.2 = none := by
    unfold Lease.reset
    cases hcn : l.conn with
    | none => rfl
    | some cv =>
      rcases h with h | h | h
      · rw [h] at hcn
        exact absurd hcn (by simp)
      · simp [h]
      · simp [h]
  have hmv : (Lease.move_from l).2.reset.2 = none := by
    unfold Lease.reset Lease.move_from
    rfl
  refine ⟨hreset, ?_, rfl, rfl, ?_⟩
  · unfold dropLease
    rw [hreset]
  · unfold dropLease
    rw [hmv]

/-- Claim C8: invalid-id release atomicity.  When the endpoint has no
bucket or the id is not a key of the in-use map of that bucket,
`release` returns the pool with only `release_invalid_id` incremented:
buckets, counters and waiter queues are all unchanged and no timer is
captured (no waiter is woken). -/
theorem C8_release_invalid_id (healthy : Nat → Bool) (now : Int)
    (ep : Endpoint) (ident : Nat) (p : Pool)
    (hinv : (lookupBucket p.buckets ep).bind (fun b => findConn b.in_use ident) = none) :
    release healthy now ep ident p =
      ({ p with metrics := { p.metrics with
          release_invalid_id := p.metrics.release_invalid_id + 1 } }, none) := by
  unfold release
  cases hb : lookupBucket p.buckets ep with
  | none => rfl
  | some b =>
    rw [hb] at hinv
    simp only [Option.some_bind] at hinv
    simp only [hinv]

/-- Claim C10: empty-host default.  Normalizing an endpoint whose host
is empty sets the host to "localhost" (then lowercases it, a fixed
point); with an empty port the normalized endpoint is exactly
("localhost", scheme default port); and `try_acquire` and `acquire` on
an empty-host endpoint operate on the bucket of the normalized endpoint
rather than rejecting the input. -/
theorem C10_empty_host_defaults (cfg : Config) (healthy : Nat → Bool) (now : Int)
    (p : Pool) (rounds : List AcquireRound) (port : String) (https : Bool) :
    (normalize_endpoint ⟨"", port, https⟩).host = "localhost" ∧
    (port = "" → normalize_endpoint ⟨"", port, https⟩ =
      ⟨"localhost", if https then "443" else "80", https⟩) ∧
    try_acquire cfg healthy now ⟨"", port, https⟩ p =
      try_acquire_locked cfg healthy now (normalize_endpoint ⟨"", port, https⟩) p ∧
    acquire cfg ⟨"", port, https⟩ rounds p =
      acquire_loop cfg (normalize_endpoint ⟨"", port, https⟩) rounds p := by
  refine ⟨?_, ?_, rfl, rfl⟩
  · unfold normalize_endpoint Endpoint.normalize_default_port Endpoint.normalize_host
    by_cases hp : port = ""
    · simp [hp]
      rfl
    · simp [hp]
      rfl
  · intro hp
    subst hp
    unfold normalize_endpoint Endpoint.normalize_default_port Endpoint.normalize_host
    cases https <;> simp <;> rfl


/-- Claim C1: capacity invariant.  Starting from a fresh pool, after any
sequence of `try_acquire`, `acquire` and `release` operations (together
with the circuit-breaker reports, which are also public), every bucket
satisfies `in_use.length + idle.length ≤ max_connections_per_endpoint`,
and the sum of that quantity over all buckets is at most
`max_total_connections`. -/
theorem C1_capacity_invariant (cfg : Config) (ops : List PoolOp) :
    (∀ q ∈ (runOps cfg ops).buckets,
      bucketCount q.2 ≤ cfg.max_connections_per_endpoint) ∧
    sumBy bucketCount (runOps cfg ops).buckets ≤ cfg.max_total_connections :=
  ⟨(runOps_capacityInv cfg ops).1, (runOps_capacityInv cfg ops).2.1⟩

/-- Claim C4, amended: the idle deque is used FIFO, not LIFO.  Whenever
the bucket of the requested endpoint has at least one idle entry after
pruning and its front entry passes the health, reuse-limit and age
checks, `try_acquire_locked` hands out exactly that front entry (the
least recently released one); and pruning also removes entries from the
front, the surviving deque being a suffix of the original. -/
theorem C4_fifo_reuse (cfg : Config) (healthy : Nat → Bool) (now : Int)
    (ep : Endpoint) (p : Pool) (b : Bucket) (e : IdleEntry) (rest : List IdleEntry)
    (halive : p.alive = true)
    (hb : lookupBucket (prune_idle_locked cfg now p).buckets ep = some b)
    (hidle : b.idle = e :: rest)
    (hcirc : b.is_circuit_open now = false)
    (hh : healthy e.conn = true)
    (hreuse : e.reuse_count < cfg.max_connection_reuse_count)
    (hage : now - e.created ≤ cfg.max_connection_age) :
    ((try_acquire_locked cfg healthy now ep p).1).map LeaseInfo.conn = some e.conn ∧
    (∀ (ttl tnow : Int) (l : List IdleEntry),
      (pruneIdleList ttl tnow l).1 = l.drop (pruneIdleList ttl tnow l).2) := by
  constructor
  · have hnreuse : ¬ cfg.max_connection_reuse_count ≤ e.reuse_count :=
      Nat.not_le.mpr hreuse
    have hnage : ¬ cfg.max_connection_age < now - e.created := not_lt.mpr hage
    unfold try_acquire_locked
    simp only [halive, Bool.not_true, Bool.false_eq_true, if_false]
    rw [hb]
    simp only [Option.getD_some, hcirc, Bool.false_eq_true, if_false]
    rw [hidle]
    simp only [reuseScan, hh, Bool.not_true, Bool.false_eq_true, if_false,
      hnreuse, hnage, if_true]
    simp
  · intro ttl tnow l
    exact pruneIdleList_drop ttl tnow l

theorem tryAcquireLocked_idle_origin (cfg : Config) (healthy : Nat → Bool)
    (now : Int) (ep : Endpoint) (p : Pool) (halive : p.alive = true) :
    ∀ q ∈ (try_acquire_locked cfg healthy now ep p).2.buckets, ∀ e ∈ q.2.idle,
      ∃ q' ∈ (prune_idle_locked cfg now p).buckets, e ∈ q'.2.idle := by
  unfold try_acquire_locked
  simp only [halive, Bool.not_true, Bool.false_eq_true, if_false]
  cases hlk : lookupBucket (prune_idle_locked cfg now p).buckets ep with
  | none =>
    simp only [Option.getD_none]
    split
    · intro q hq e he
      rcases mem_updateBucket hq with rfl | hq
      · simp [Bucket.empty] at he
      · exact ⟨q, hq, he⟩
    · rcases hscan : reuseScan cfg healthy now Bucket.empty.idle
          { (prune_idle_locked cfg now p) with
            buckets := updateBucket (prune_idle_locked cfg now p).buckets ep
              Bucket.empty }.metrics with ⟨o, rest, m⟩
      cases o with
      | some e0 =>
        exfalso
        have hnone : (reuseScan cfg healthy now Bucket.empty.idle
            { (prune_idle_locked cfg now p) with
              buckets := updateBucket (prune_idle_locked cfg now p).buckets ep
                Bucket.empty }.metrics).1 = none := rfl
        rw [hscan] at hnone
        simp at hnone
      | none =>
        simp only [hscan]
        have hrest : rest = [] := by
          have := reuseScan_none_rest (by rw [hscan])
          rw [hscan] at this
          exact this
        subst hrest
        split
        · intro q hq e he
          rcases mem_updateBucket hq with rfl | hq
          · simp [Bucket.empty] at he
          · rcases mem_updateBucket hq with rfl | hq
            · simp [Bucket.empty] at he
            · exact ⟨q, hq, he⟩
        · split
          · intro q hq e he
            rcases mem_updateBucket hq with rfl | hq
            · simp [Bucket.empty] at he
            · rcases mem_updateBucket hq with rfl | hq
              · simp [Bucket.empty] at he
              · exact ⟨q, hq, he⟩
          · intro q hq e he
            rcases mem_updateBucket hq with rfl | hq
            · simp [Bucket.empty] at he
            · rcases mem_updateBucket hq with rfl | hq
              · simp [Bucket.empty] at he
              · rcases mem_updateBucket hq with rfl | hq
                · simp [Bucket.empty] at he
                · exact ⟨q, hq, he⟩
  | some b =>
    have hmem := lookupBucket_mem hlk
    simp only [Option.getD_some]
    split
    · intro q hq e he
      rcases mem_updateBucket hq with rfl | hq
      · exact ⟨(ep, b), hmem, he⟩
      · exact ⟨q, hq, he⟩
    · rcases hscan : reuseScan cfg healthy now b.idle
          { (prune_idle_locked cfg now p) with
            buckets := updateBucket (prune_idle_locked cfg now p).buckets ep
              b }.metrics with ⟨o, rest, m⟩
      cases o with
      | some e0 =>
        simp only [hscan]
        intro q hq e he
        rcases mem_updateBucket hq with rfl | hq
        · have hsub := reuseScan_some_facts (by rw [hscan])
          rw [hscan] at hsub
          have hin : e ∈ b.idle := hsub.2.1 e he
          exact ⟨(ep, b), hmem, hin⟩
        · rcases mem_updateBucket hq with rfl | hq
          · exact ⟨(ep, b), hmem, he⟩
          · exact ⟨q, hq, he⟩
      | none =>
        simp only [hscan]
        have hrest : rest = [] := by
          have := reuseScan_none_rest (by rw [hscan])
          rw [hscan] at this
          exact this
        subst hrest
        split
        · intro q hq e he
          rcases mem_updateBucket hq with rfl | hq
          · simp at he
          · rcases mem_updateBucket hq with rfl | hq
            · exact ⟨(ep, b), hmem, he⟩
            · exact ⟨q, hq, he⟩
        · split
          · intro q hq e he
            rcases mem_updateBucket hq with rfl | hq
            · simp at he
            · rcases mem_updateBucket hq with rfl | hq
              · exact ⟨(ep, b), hmem, he⟩
              · exact ⟨q, hq, he⟩
          · intro q hq e he
            rcases mem_updateBucket hq with rfl | hq
            · simp at he
            · rcases mem_updateBucket hq with rfl | hq
              · simp at he
              · rcases mem_updateBucket hq with rfl | hq
                · exact ⟨(ep, b), hmem, he⟩
                · exact ⟨q, hq, he⟩

/-- Claim C9, amended: idle pruning.  Provided `connection_idle_ttl` is
positive (the source skips pruning entirely when the configured ttl is
zero or negative), the pool is not shut down, and every idle deque is
ordered by `last_used` (the order release maintains, oldest at the
front), then after any `try_acquire` at instant `now` no idle entry of
any bucket has `now - last_used ≥ connection_idle_ttl`. -/
theorem C9_pruning_bound (cfg : Config) (healthy : Nat → Bool) (now : Int)
    (ep : Endpoint) (p : Pool)
    (halive : p.alive = true)
    (httl : 0 < cfg.connection_idle_ttl)
    (hsort : ∀ q ∈ p.buckets,
      q.2.idle.Pairwise fun a b => a.last_used ≤ b.last_used) :
    ∀ q ∈ (try_acquire cfg healthy now ep p).2.buckets, ∀ e ∈ q.2.idle,
      now - e.last_used < cfg.connection_idle_ttl := by
  have hfresh : ∀ q ∈ (prune_idle_locked cfg now p).buckets, ∀ e ∈ q.2.idle,
      now - e.last_used < cfg.connection_idle_ttl := by
    unfold prune_idle_locked
    rw [if_neg (not_le.mpr httl)]
    intro q hq e he
    rcases List.mem_map.mp hq with ⟨q0, hq0, rfl⟩
    exact pruneIdleList_fresh (hsort q0 hq0) he
  intro q hq e he
  rcases tryAcquireLocked_idle_origin cfg healthy now (normalize_endpoint ep) p
      halive q hq e he with ⟨q', hq', he'⟩
  exact hfresh q' hq' e he'




/-- Claim C2: the error surface of `acquire` does not have four
distinguishable kinds.  `Error::Code` has no Shutdown, InternalError or
CircuitOpen constructor; the shutdown exit and the unexpected-timer-error
exit of `acquire` both return `ErrorCode.Unknown` (told apart only by
message text), the clean timer expiry returns `ErrorCode.Timeout`, and no
exit of `acquire` produces any circuit-open error value. -/
theorem C2_error_code_collapse :
    (acquire cfgT epA [roundOK] (shutdown freshPool)).1 =
      AcquireResult.err ⟨ErrorCode.Unknown, "Pool is shutting down"⟩ ∧
    (acquire cfgTotal0 epA [roundBoom] freshPool).1 =
      AcquireResult.err ⟨ErrorCode.Unknown, "Internal error: boom"⟩ ∧
    (acquire cfgTotal0 epA [roundOK] freshPool).1 =
      AcquireResult.err ⟨ErrorCode.Timeout, "Acquire timeout"⟩ := by
  decide

/-- Claim C3: reuse counting is broken in the source.  `release` stores a
fresh `IdleEntry` with `reuse_count = 0` (and `created = now`), so after
two acquire/release cycles of the same connection the idle entry still
records `reuse_count = 0` instead of 2, and with
`max_connection_reuse_count = 2` a third acquire still hands out the
same connection instead of rotating it. -/
theorem C3_reuse_count_reset :
    ((lookupBucket (runOps cfgReuse2 cycles2).buckets epA).map
        (fun b => b.idle.map IdleEntry.reuse_count) = some [0]) ∧
    ¬ ((lookupBucket (runOps cfgReuse2 cycles2).buckets epA).map
        (fun b => b.idle.map IdleEntry.reuse_count) = some [2]) ∧
    ((try_acquire cfgReuse2 hOK 0 epA (runOps cfgReuse2 cycles2)).1).map
        LeaseInfo.conn = some 1 := by
  decide

/-- Claim C4, counterexample: with two idle entries in the bucket (the
entry holding connection 1 released first, the entry holding connection
2 released last, so the back of the deque is connection 2), `try_acquire`
hands out connection 1 — the front, least recently released entry — and
not the most recently released one the claim predicts. -/
theorem C4_lifo_counterexample :
    (runOps cfgT fourOps).buckets =
      [(epA, ⟨[⟨1, 0, 0, 0⟩, ⟨2, 0, 0, 0⟩], [], [], 0, 0⟩)] ∧
    ((try_acquire cfgT hOK 0 epA (runOps cfgT fourOps)).1).map
        LeaseInfo.conn = some 1 ∧
    ¬ ((try_acquire cfgT hOK 0 epA (runOps cfgT fourOps)).1).map
        LeaseInfo.conn = some 2 := by
  decide

/-- Claim C4, witness for the amended theorem at a concrete pool holding
two idle entries: the front entry (connection 1) is handed out. -/
theorem C4_fifo_reuse_witness :
    ((try_acquire_locked cfgT hOK 0 epA (runOps cfgT fourOps)).1).map
        LeaseInfo.conn = some 1 :=
  (C4_fifo_reuse cfgT hOK 0 epA (runOps cfgT fourOps)
    ⟨[⟨1, 0, 0, 0⟩, ⟨2, 0, 0, 0⟩], [], [], 0, 0⟩ ⟨1, 0, 0, 0⟩ [⟨2, 0, 0, 0⟩]
    (by decide) (by decide) (by decide) (by decide) (by decide) (by decide)
    (by decide)).1

/-- Claim C5: `report_failure` does not normalize its endpoint argument
(although the comment on `normalize_endpoint` says it is called before
any public method), so after tripping the breaker for host "A" the
bucket for ⟨"A", "80", false⟩ has `circuit_open_until = 1000`, yet
`try_acquire` on the very same endpoint at instant 5 < 1000 operates on
the normalized bucket ⟨"a", "80", false⟩ and succeeds instead of
returning none. -/
theorem C5_report_failure_no_normalize :
    ((lookupBucket (report_connection_failure cfgBreaker1 0 epAu freshPool).buckets
        epAu).map Bucket.circuit_open_until = some 1000) ∧
    ((5 : Int) < 1000) ∧
    (try_acquire cfgBreaker1 hOK 5 epAu
        (report_connection_failure cfgBreaker1 0 epAu freshPool)).1 =
      some ⟨1, 1, epA⟩ := by
  decide

/-- Claim C6, witness: a bucket whose local queue holds an inactive
waiter followed by two active ones, plus one active global waiter; the
valid release captures the timer of the first active local waiter (11)
and leaves the global queue untouched. -/
theorem C6_release_wakes_frontmost_local_witness :
    (release hOK 0 epA 1 poolW).2 = some 11 ∧
    (release hOK 0 epA 1 poolW).1.global_waiters = [gActive] := by
  obtain ⟨h1, h2⟩ := C6_release_wakes_frontmost_local hOK 0 epA 1 poolW bucketW 5
    wActive1 (by decide) (by decide) (by decide)
  exact ⟨h1, h2⟩

/-- Claim C7, witness: dropping a lease whose alive flag reads false
leaves a fresh pool unchanged, and the moved-from copy of that lease is
inert (null connection, id 0). -/
theorem C7_inert_lease_noop_witness :
    dropLease hOK 0 freshPool leaseDead = freshPool ∧
    (Lease.move_from leaseDead).2.conn = none ∧
    (Lease.move_from leaseDead).2.ident = 0 := by
  obtain ⟨h1, h2, h3, h4, h5⟩ :=
    C7_inert_lease_noop hOK 0 freshPool leaseDead (Or.inr (Or.inr rfl))
  exact ⟨h2, h3, h4⟩

/-- Claim C8, witness: releasing id 1 on a fresh pool (no bucket at all)
returns the pool with only `release_invalid_id` bumped and wakes nobody. -/
theorem C8_release_invalid_id_witness :
    release hOK 0 epA 1 freshPool =
      ({ freshPool with metrics := { freshPool.metrics with
          release_invalid_id := freshPool.metrics.release_invalid_id + 1 } },
       none) :=
  C8_release_invalid_id hOK 0 epA 1 freshPool (by decide)

/-- Claim C9, counterexample to the claim as stated: with
`connection_idle_ttl = 0` the prune loop is skipped entirely, so a stale
idle entry in the bucket of endpoint b (age 5 ≥ ttl = 0 at instant 5)
survives a `try_acquire` on endpoint a. -/
theorem C9_ttl_zero_counterexample :
    cfgTtl0.connection_idle_ttl = 0 ∧
    ((lookupBucket (try_acquire cfgTtl0 hOK 5 epA
        (runOps cfgTtl0 stale9)).2.buckets epB).map Bucket.idle =
      some [⟨1, 0, 0, 0⟩]) ∧
    ¬ ((5 : Int) - 0 < cfgTtl0.connection_idle_ttl) := by
  decide

/-- Claim C9, witness for the amended theorem: on a live pool with a
positive ttl and sorted idle deques, the idle entry left in the bucket
after a `try_acquire` at instant 5 (the one holding connection 2, the
front having been handed out) is younger than the ttl. -/
theorem C9_pruning_bound_witness :
    (5 : Int) - (0 : Int) < cfgT.connection_idle_ttl :=
  C9_pruning_bound cfgT hOK 5 epA (runOps cfgT fourOps) (by decide) (by decide)
    (by decide) (epA, ⟨[⟨2, 0, 0, 0⟩], [(3, 1)], [], 0, 0⟩) (by decide)
    ⟨2, 0, 0, 0⟩ (by decide)

/-- Claim C10, witness: the empty endpoint normalizes to
("localhost", "443") under https, and `try_acquire` on it is exactly
`try_acquire_locked` on the normalized endpoint. -/
theorem C10_empty_host_defaults_witness :
    normalize_endpoint ⟨"", "", true⟩ = ⟨"localhost", "443", true⟩ ∧
    try_acquire cfgT hOK 0 ⟨"", "", true⟩ freshPool =
      try_acquire_locked cfgT hOK 0 (normalize_endpoint ⟨"", "", true⟩)
        freshPool := by
  obtain ⟨h1, h2, h3, h4⟩ := C10_empty_host_defaults cfgT hOK 0 freshPool [] "" true
  exact ⟨h2 rfl, h3⟩

end RestCpp
